import Mathlib

/-!
Verification of the NEAT-style neuroevolution engine (`NEATEngine`) of the
dental-analysis repository.  The TypeScript source is shallowly embedded:
JS numbers used for weights, rates and fitness become `ℚ`; counters and sizes
become `ℕ`; `Math.random()` draws become explicit parameters (a rational in
`[0,1)` for draws compared against rates, a natural number reduced modulo the
bound for `Math.floor(Math.random() * n)` index draws); nondeterministic
identifier strings (`Date.now()` based) become explicit `String` parameters.
`Math.max(...)` over a possibly-empty list of innovation numbers becomes an
`Option ℕ` (with `none` playing the role of `-Infinity`), and the compatibility
distance returns `Option ℚ` where `none` models the `NaN` the source produces
when `N = max(|connections1|, |connections2|) = 0` (the JS expression `0/0`).
-/

namespace Plaque

/-- Role of a `NeuralLayer`: the source's `'input' | 'hidden' | 'output'`. -/
inductive LayerType where
  | input
  | hidden
  | output
deriving DecidableEq, Repr

/-- `NeuralLayer` interface of the source. -/
structure NeuralLayer where
  id : String
  type : LayerType
  units : ℕ
  activation : String
  dropout : ℚ
  batchNormalization : Bool
deriving DecidableEq, Repr

/-- `ConnectionGene` interface of the source; `from`/`to` are Lean keywords,
so they are embedded as `fromId`/`toId`. -/
structure ConnectionGene where
  fromId : String
  toId : String
  weight : ℚ
  enabled : Bool
  innovation : ℕ
deriving DecidableEq, Repr

/-- `NeuralArchitecture` interface of the source. -/
structure NeuralArchitecture where
  layers : List NeuralLayer
  connections : List ConnectionGene
  activationFunctions : List String
  learningRate : ℚ
  optimizer : String
  lossFunction : String
deriving DecidableEq, Repr

/-- `Genome` interface of the source. -/
structure Genome where
  id : String
  architecture : NeuralArchitecture
  fitness : ℚ
  species : ℕ
  age : ℕ
  adjustedFitness : ℚ
  historicalMarkers : List ℚ
deriving DecidableEq, Repr

/-- `Species` interface of the source. -/
structure Species where
  id : ℕ
  representative : Genome
  members : List Genome
  bestFitness : ℚ
  stagnation : ℕ
  age : ℕ
deriving DecidableEq, Repr

/-- The mutation-rate block of `NEATConfiguration`. -/
structure MutationRates where
  addNode : ℚ
  addConnection : ℚ
  removeNode : ℚ
  removeConnection : ℚ
  mutateWeights : ℚ
  mutateActivation : ℚ
  mutateLearningRate : ℚ
deriving DecidableEq, Repr

/-- The compatibility block of `NEATConfiguration`. -/
structure Compatibility where
  c1 : ℚ
  c2 : ℚ
  c3 : ℚ
  threshold : ℚ
deriving DecidableEq, Repr

/-- The stagnation block of `NEATConfiguration`. -/
structure Stagnation where
  maxStagnation : ℕ
  survivalThreshold : ℚ
deriving DecidableEq, Repr

/-- `NEATConfiguration` interface of the source. -/
structure NEATConfiguration where
  populationSize : ℕ
  inputSize : ℕ
  outputSize : ℕ
  maxHiddenLayers : ℕ
  maxUnitsPerLayer : ℕ
  mutationRates : MutationRates
  compatibility : Compatibility
  stagnation : Stagnation
  elitism : ℚ
deriving DecidableEq, Repr

/-- The defaults installed by the `NEATEngine` constructor. -/
def defaultConfiguration : NEATConfiguration :=
  { populationSize := 50
    inputSize := 784
    outputSize := 10
    maxHiddenLayers := 5
    maxUnitsPerLayer := 512
    mutationRates :=
      { addNode := 3/100
        addConnection := 5/100
        removeNode := 2/100
        removeConnection := 2/100
        mutateWeights := 8/10
        mutateActivation := 1/10
        mutateLearningRate := 1/10 }
    compatibility := { c1 := 1, c2 := 1, c3 := 4/10, threshold := 3 }
    stagnation := { maxStagnation := 15, survivalThreshold := 2/10 }
    elitism := 2/10 }

/-- The engine's fixed activation-function table (`this.activationFunctions`). -/
def activationFunctionTable : List String :=
  ["relu", "sigmoid", "tanh", "elu", "selu", "softmax", "linear"]

instance : Inhabited ConnectionGene :=
  ⟨{ fromId := "", toId := "", weight := 0, enabled := false, innovation := 0 }⟩

instance : Inhabited NeuralLayer :=
  ⟨{ id := "", type := .input, units := 0, activation := "", dropout := 0,
     batchNormalization := false }⟩

instance : Inhabited Genome :=
  ⟨{ id := ""
     architecture :=
       { layers := [], connections := [], activationFunctions := [],
         learningRate := 0, optimizer := "", lossFunction := "" }
     fitness := 0, species := 0, age := 0, adjustedFitness := 0,
     historicalMarkers := [] }⟩

/-! ## Compatibility distance -/

/-- One step of the running maximum over innovation numbers. -/
def maxInnovStep (acc : Option ℕ) (c : ConnectionGene) : Option ℕ :=
  match acc with
  | none => some c.innovation
  | some m => some (Nat.max m c.innovation)

/-- `Math.max(...connections.map(c => c.innovation))`: `none` models the
`-Infinity` the JS spread produces on an empty list. -/
def maxInnovationOf (cs : List ConnectionGene) : Option ℕ :=
  cs.foldl maxInnovStep none

/-- `i <= Math.min(maxInnovation1, maxInnovation2)` where either side may be
`-Infinity` (`none`): any comparison with `-Infinity` on the right is false. -/
def leMinInnovation (i : ℕ) : Option ℕ → Option ℕ → Bool
  | some a, some b => decide (i ≤ Nat.min a b)
  | _, _ => false

/-- Accumulator of the `for (let i = 0; i <= maxInnovation; i++)` loop of
`getCompatibilityDistance`: excess, disjoint, weightDiff, matching. -/
structure DistAcc where
  excess : ℕ
  disjoint : ℕ
  weightDiff : ℚ
  matching : ℕ
deriving DecidableEq, Repr

/-- One iteration of the distance loop at innovation number `i`. -/
def distStep (cs1 cs2 : List ConnectionGene) (m1 m2 : Option ℕ)
    (acc : DistAcc) (i : ℕ) : DistAcc :=
  match cs1.find? (fun c => c.innovation == i),
        cs2.find? (fun c => c.innovation == i) with
  | some c1, some c2 =>
      { acc with matching := acc.matching + 1,
                 weightDiff := acc.weightDiff + |c1.weight - c2.weight| }
  | some _, none =>
      if leMinInnovation i m1 m2 then { acc with disjoint := acc.disjoint + 1 }
      else { acc with excess := acc.excess + 1 }
  | none, some _ =>
      if leMinInnovation i m1 m2 then { acc with disjoint := acc.disjoint + 1 }
      else { acc with excess := acc.excess + 1 }
  | none, none => acc

/-- `NEATEngine.getCompatibilityDistance`.  Returns `none` exactly when both
genomes have no connections: there `N = 0` and the source computes
`c1*0/0 + c2*0/0 + c3*0 = NaN`.  (Any comparison of `NaN` with the threshold
is false in JS; `distanceBelowThreshold` mirrors that.) -/
def getCompatibilityDistance (cfg : NEATConfiguration) (g1 g2 : Genome) :
    Option ℚ :=
  let cs1 := g1.architecture.connections
  let cs2 := g2.architecture.connections
  let m1 := maxInnovationOf cs1
  let m2 := maxInnovationOf cs2
  match m1, m2 with
  | none, none => none
  | _, _ =>
      let maxI : ℕ :=
        Nat.max ((m1.getD 0)) ((m2.getD 0))
      let acc := (List.range (maxI + 1)).foldl (distStep cs1 cs2 m1 m2)
        { excess := 0, disjoint := 0, weightDiff := 0, matching := 0 }
      let N : ℚ := (Nat.max cs1.length cs2.length : ℕ)
      let avgWeightDiff : ℚ :=
        if acc.matching > 0 then acc.weightDiff / (acc.matching : ℚ) else 0
      some (cfg.compatibility.c1 * (acc.excess : ℚ) / N +
            cfg.compatibility.c2 * (acc.disjoint : ℚ) / N +
            cfg.compatibility.c3 * avgWeightDiff)

/-- The speciation test `getCompatibilityDistance(...) < threshold`; false on
`NaN` (`none`), as in JS. -/
def distanceBelowThreshold (cfg : NEATConfiguration) (g rep : Genome) : Bool :=
  match getCompatibilityDistance cfg g rep with
  | none => false
  | some q => decide (q < cfg.compatibility.threshold)

/-! ## Minimal genome construction

`createMinimalGenome` stamps `this.innovationNumber++` on every initial
connection, so the counter is threaded explicitly; the per-connection
`Math.random()` weight draw becomes `w i j`. -/

/-- Inner loop of `createMinimalGenome`'s connection construction: one input
index `i` against the list of output indices, threading the innovation
counter. -/
def minimalConnRow (w : ℕ → ℕ → ℚ) (i : ℕ) :
    List ℕ → ℕ → List ConnectionGene × ℕ
  | [], c => ([], c)
  | j :: js, c =>
      let rest := minimalConnRow w i js (c + 1)
      ({ fromId := "input_" ++ toString i
         toId := "output_" ++ toString j
         weight := (w i j - 1/2) * 2
         enabled := true
         innovation := c } :: rest.1, rest.2)

/-- Outer loop of `createMinimalGenome`'s connection construction. -/
def minimalConnRows (w : ℕ → ℕ → ℚ) (outSize : ℕ) :
    List ℕ → ℕ → List ConnectionGene × ℕ
  | [], c => ([], c)
  | i :: is, c =>
      let row := minimalConnRow w i (List.range outSize) c
      let rest := minimalConnRows w outSize is row.2
      (row.1 ++ rest.1, rest.2)

/-- `NEATEngine.createMinimalGenome`, returning the genome together with the
updated innovation counter. -/
def createMinimalGenome (cfg : NEATConfiguration) (w : ℕ → ℕ → ℚ) (c : ℕ) :
    Genome × ℕ :=
  let layers : List NeuralLayer :=
    [{ id := "input", type := .input, units := cfg.inputSize,
       activation := "linear", dropout := 0, batchNormalization := false },
     { id := "output", type := .output, units := cfg.outputSize,
       activation := "softmax", dropout := 0, batchNormalization := false }]
  let conns := minimalConnRows w cfg.outputSize (List.range cfg.inputSize) c
  ({ id := ""
     architecture :=
       { layers := layers
         connections := conns.1
         activationFunctions := ["linear", "softmax"]
         learningRate := 1/1000
         optimizer := "adam"
         lossFunction := "categoricalCrossentropy" }
     fitness := 0, species := 0, age := 0, adjustedFitness := 0,
     historicalMarkers := [] }, conns.2)

/-! ## Speciation

`speciatePopulation` mutates genomes and species in place; the embedding
threads an explicit state.  Because JS pushes the very genome object whose
`species` field it then assigns, the member stored in a species carries the
updated `species` field; the updated genomes are also collected as the
resulting population.  The `created` component is a write-only log of the ids
handed to newly created species (it never influences the computation). -/

instance : Inhabited Species :=
  ⟨{ id := 0, representative := default, members := [], bestFitness := 0,
     stagnation := 0, age := 0 }⟩

/-- State threaded through one speciation pass. -/
structure SpeciationState where
  pop : List Genome
  specs : List Species
  created : List ℕ
deriving Repr

/-- Processing of one genome inside `speciatePopulation`'s `forEach`: find the
first species whose representative is within the threshold, else create a new
species with id = current species-list length. -/
def speciateStep (cfg : NEATConfiguration) (st : SpeciationState) (g : Genome) :
    SpeciationState :=
  match st.specs.findIdx? (fun s => distanceBelowThreshold cfg g s.representative) with
  | some i =>
      let s := st.specs.getD i default
      let g' := { g with species := s.id }
      { pop := st.pop ++ [g']
        specs := st.specs.set i { s with members := s.members ++ [g'] }
        created := st.created }
  | none =>
      let g' := { g with species := st.specs.length }
      { pop := st.pop ++ [g']
        specs := st.specs ++
          [{ id := st.specs.length, representative := g', members := [g'],
             bestFitness := g'.fitness, stagnation := 0, age := 0 }]
        created := st.created ++ [st.specs.length] }

/-- `NEATEngine.speciatePopulation`: clear all members, re-assign every genome
in population order, then drop species that stayed empty. -/
def speciatePopulation (cfg : NEATConfiguration) (pop : List Genome)
    (specs : List Species) : SpeciationState :=
  let cleared := specs.map (fun s => { s with members := ([] : List Genome) })
  let st := pop.foldl (speciateStep cfg) ⟨[], cleared, []⟩
  { st with specs := st.specs.filter (fun s => s.members.length > 0) }

/-! ## Mutation operators

Each operator mutates its argument genome in place in the source; the
embedding returns the updated genome value.  Index draws
`Math.floor(Math.random() * n)` are modeled as an arbitrary natural reduced
`% n` (in-range for the positive `n` occurring at each use site). -/

/-- `forEach`-with-index loops used by the weight/activation operators. -/
def mapIdxFrom (f : ℕ → α → α) : ℕ → List α → List α
  | _, [] => []
  | i, a :: as => f i a :: mapIdxFrom f (i + 1) as

/-- The `Math.random()` draws consumed by one `addNodeMutation` call, plus the
`Date.now()`-based layer id. -/
structure AddNodeDraws where
  newId : String
  unitsIdx : ℕ
  actIdx : ℕ
  dropoutDraw : ℚ
  bnDraw : ℚ
  insertIdx : ℕ

/-- `NEATEngine.addNodeMutation`: no-op at `maxHiddenLayers`; otherwise insert
one fresh hidden layer at a position in `[1, layers.length - 1]`. -/
def addNodeMutation (cfg : NEATConfiguration) (d : AddNodeDraws) (g : Genome) :
    Genome :=
  let hiddenLayers := g.architecture.layers.filter (fun l => l.type == .hidden)
  if hiddenLayers.length < cfg.maxHiddenLayers then
    let newLayer : NeuralLayer :=
      { id := d.newId
        type := .hidden
        units := d.unitsIdx % cfg.maxUnitsPerLayer + 1
        activation := activationFunctionTable.getD
          (d.actIdx % activationFunctionTable.length) ""
        dropout := d.dropoutDraw / 2
        batchNormalization := decide (d.bnDraw < 3/10) }
    let idx := d.insertIdx % (g.architecture.layers.length - 1) + 1
    { g with architecture.layers :=
        g.architecture.layers.take idx ++ [newLayer] ++
          g.architecture.layers.drop idx }
  else g

/-- The draws consumed by one `addConnectionMutation` call. -/
structure AddConnDraws where
  fromIdx : ℕ
  toIdx : ℕ
  weightDraw : ℚ

/-- `NEATEngine.addConnectionMutation`: applies only when the genome has more
than 2 layers and the drawn endpoint ids differ; stamps and increments the
innovation counter. -/
def addConnectionMutation (d : AddConnDraws) (c : ℕ) (g : Genome) :
    Genome × ℕ :=
  let layers := g.architecture.layers
  if layers.length > 2 then
    let fromLayer := layers.getD (d.fromIdx % (layers.length - 1)) default
    let toLayer := layers.getD (d.toIdx % (layers.length - 1) + 1) default
    if fromLayer.id ≠ toLayer.id then
      ({ g with architecture.connections := g.architecture.connections ++
          [{ fromId := fromLayer.id, toId := toLayer.id,
             weight := (d.weightDraw - 1/2) * 2, enabled := true,
             innovation := c }] }, c + 1)
    else (g, c)
  else (g, c)

/-- `NEATEngine.removeNodeMutation`: remove one randomly chosen hidden layer
(every layer sharing its id, as the source filters by id) and every connection
referencing its id. -/
def removeNodeMutation (pickIdx : ℕ) (g : Genome) : Genome :=
  let hiddenLayers := g.architecture.layers.filter (fun l => l.type == .hidden)
  if hiddenLayers.length > 0 then
    let victim := hiddenLayers.getD (pickIdx % hiddenLayers.length) default
    { g with
        architecture.layers :=
          g.architecture.layers.filter (fun l => l.id != victim.id)
        architecture.connections :=
          g.architecture.connections.filter
            (fun conn => conn.fromId != victim.id && conn.toId != victim.id) }
  else g

/-- `NEATEngine.removeConnectionMutation`: applies only when more than one
connection exists; splices out one uniformly chosen connection. -/
def removeConnectionMutation (pickIdx : ℕ) (g : Genome) : Genome :=
  let connections := g.architecture.connections
  if connections.length > 1 then
    { g with architecture.connections :=
        connections.eraseIdx (pickIdx % connections.length) }
  else g

/-- `NEATEngine.mutateWeights`: each connection independently perturbed with
probability 0.1 by `(Math.random() - 0.5) * 0.5`. -/
def mutateWeights (wDraw wDelta : ℕ → ℚ) (g : Genome) : Genome :=
  { g with architecture.connections :=
      mapIdxFrom (fun i conn =>
        if wDraw i < 1/10 then
          { conn with weight := conn.weight + (wDelta i - 1/2) * (1/2) }
        else conn) 0 g.architecture.connections }

/-- `NEATEngine.mutateActivation`: each non-input layer independently gets a
fresh activation from the fixed table with probability 0.1. -/
def mutateActivation (aDraw : ℕ → ℚ) (aIdx : ℕ → ℕ) (g : Genome) : Genome :=
  { g with architecture.layers :=
      mapIdxFrom (fun i l =>
        if l.type ≠ .input ∧ aDraw i < 1/10 then
          { l with activation :=
              (activationFunctionTable.getD
                (aIdx i % activationFunctionTable.length) "") }
        else l) 0 g.architecture.layers }

/-- `NEATEngine.mutateLearningRate`: multiply by a factor in `[0.9, 1.1]` and
clamp into `[0.0001, 0.1]`. -/
def mutateLearningRate (r : ℚ) (g : Genome) : Genome :=
  let lr := g.architecture.learningRate * (9/10 + r * (1/5))
  { g with architecture.learningRate := max (1/10000) (min (1/10) lr) }

/-- All draws consumed by one `mutate` call (each operator's gate plus its
internal draws), and the regenerated offspring id. -/
structure MutateDraws where
  newId : String
  addNodeGate : ℚ
  addNodeDraws : AddNodeDraws
  addConnectionGate : ℚ
  addConnectionDraws : AddConnDraws
  removeNodeGate : ℚ
  removeNodeIdx : ℕ
  removeConnectionGate : ℚ
  removeConnectionIdx : ℕ
  mutateWeightsGate : ℚ
  weightDraw : ℕ → ℚ
  weightDelta : ℕ → ℚ
  mutateActivationGate : ℚ
  activationDraw : ℕ → ℚ
  activationIdx : ℕ → ℕ
  mutateLearningRateGate : ℚ
  learningRateDraw : ℚ

/-- `NEATEngine.mutate`: `const mutated = { ...genome }` is a *shallow* copy —
the copy's `architecture` is the same object as the original's — then the
seven operators are applied in source order, each gated by its own draw.
Returns the mutated genome and the updated innovation counter. -/
def mutate (cfg : NEATConfiguration) (d : MutateDraws) (c : ℕ) (g : Genome) :
    Genome × ℕ :=
  let m0 := { g with id := d.newId }
  let m1 := if d.addNodeGate < cfg.mutationRates.addNode then
      addNodeMutation cfg d.addNodeDraws m0 else m0
  let mc := if d.addConnectionGate < cfg.mutationRates.addConnection then
      addConnectionMutation d.addConnectionDraws c m1 else (m1, c)
  let m3 := if d.removeNodeGate < cfg.mutationRates.removeNode then
      removeNodeMutation d.removeNodeIdx mc.1 else mc.1
  let m4 := if d.removeConnectionGate < cfg.mutationRates.removeConnection then
      removeConnectionMutation d.removeConnectionIdx m3 else m3
  let m5 := if d.mutateWeightsGate < cfg.mutationRates.mutateWeights then
      mutateWeights d.weightDraw d.weightDelta m4 else m4
  let m6 := if d.mutateActivationGate < cfg.mutationRates.mutateActivation then
      mutateActivation d.activationDraw d.activationIdx m5 else m5
  let m7 := if d.mutateLearningRateGate < cfg.mutationRates.mutateLearningRate then
      mutateLearningRate d.learningRateDraw m6 else m6
  (m7, mc.2)

/-- The architecture of the *original* argument `g` after `mutate(g)` returns.
In the source `{ ...genome }` copies only the top-level slots, so
`mutated.architecture` and `genome.architecture` are one and the same object;
every operator mutates that object in place (splice/push/filter-reassignment/
property writes) and `mutate` never rebinds `mutated.architecture`.  Hence the
original genome's architecture after the call is exactly the returned
genome's architecture. -/
def originalArchitectureAfterMutate (cfg : NEATConfiguration) (d : MutateDraws)
    (c : ℕ) (g : Genome) : NeuralArchitecture :=
  ((mutate cfg d c g).1).architecture

/-! ## Crossover -/

/-- The draws consumed by one `crossover` call; the per-layer-index draws are
indexed by layer position. -/
structure CrossDraws where
  copyDraw : ℚ
  lrDraw : ℚ
  optDraw : ℚ
  lossDraw : ℚ
  unitsDraw : ℕ → ℚ
  activationDraw : ℕ → ℚ
  dropoutDraw : ℕ → ℚ
  bnDraw : ℕ → ℚ

/-- The merged layer pushed when both parents have a layer at index `i`:
`{...layer1}` with the four attributes each taken from either parent. -/
def crossLayerPair (d : CrossDraws) (i : ℕ) (l1 l2 : NeuralLayer) :
    NeuralLayer :=
  { l1 with
    units := if d.unitsDraw i < 1/2 then l1.units else l2.units
    activation := if d.activationDraw i < 1/2 then l1.activation else l2.activation
    dropout := if d.dropoutDraw i < 1/2 then l1.dropout else l2.dropout
    batchNormalization :=
      if d.bnDraw i < 1/2 then l1.batchNormalization else l2.batchNormalization }

/-- The `for (let i = 0; i < maxLayers; i++)` layer-merging loop of
`crossover`, unrolled positionally. -/
def crossLayers (d : CrossDraws) (i : ℕ) :
    List NeuralLayer → List NeuralLayer → List NeuralLayer
  | [], [] => []
  | l1 :: t1, l2 :: t2 => crossLayerPair d i l1 l2 :: crossLayers d (i + 1) t1 t2
  | l1 :: t1, [] => l1 :: crossLayers d (i + 1) t1 []
  | [], l2 :: t2 => l2 :: crossLayers d (i + 1) [] t2
termination_by a b => a.length + b.length

/-- `NEATEngine.crossover`: with the first draw below 0.5 the offspring is
`{...parent1}` (a verbatim value copy of parent 1); otherwise hyperparameters
are drawn per-field and layers merged positionally, while the offspring's
`connections` stay the empty array it was initialized with. -/
def crossover (d : CrossDraws) (newId : String) (p1 p2 : Genome) : Genome :=
  if d.copyDraw < 1/2 then p1
  else
    { id := newId
      architecture :=
        { layers := crossLayers d 0 p1.architecture.layers p2.architecture.layers
          connections := []
          activationFunctions := []
          learningRate := if d.lrDraw < 1/2 then p1.architecture.learningRate
            else p2.architecture.learningRate
          optimizer := if d.optDraw < 1/2 then p1.architecture.optimizer
            else p2.architecture.optimizer
          lossFunction := if d.lossDraw < 1/2 then p1.architecture.lossFunction
            else p2.architecture.lossFunction }
      fitness := 0, species := 0, age := 0, adjustedFitness := 0,
      historicalMarkers := [] }

/-! ## Selection and reproduction -/

/-- `NEATEngine.selectParent`: tournament of size 3 over uniformly drawn
population members, winner by strictly greater adjusted fitness. -/
def selectParent (pop : List Genome) (r0 r1 r2 : ℕ) : Genome :=
  let pick := fun (r : ℕ) => pop.getD (r % pop.length) default
  [r1, r2].foldl (fun best r =>
    let candidate := pick r
    if candidate.adjustedFitness > best.adjustedFitness then candidate else best)
    (pick r0)

/-- The draws consumed by one iteration of the reproduction `while` loop. -/
structure ReproDraws where
  p1a : ℕ
  p1b : ℕ
  p1c : ℕ
  p2a : ℕ
  p2b : ℕ
  p2c : ℕ
  cross : CrossDraws
  crossId : String
  mutDraws : MutateDraws

/-- `Math.ceil(species.members.length * elitism)` as a natural number. -/
def eliteCount (cfg : NEATConfiguration) (s : Species) : ℕ :=
  (Int.ceil ((s.members.length : ℚ) * cfg.elitism)).toNat

/-- `[...species.members].sort((a, b) => b.fitness - a.fitness)`. -/
def sortByFitnessDesc (l : List Genome) : List Genome :=
  l.mergeSort (fun a b => decide (b.fitness ≤ a.fitness))

/-- The reproduction `while` loop: each iteration selects two parents,
crosses them, mutates the offspring (threading the innovation counter) and
appends it; `k` counts the iterations still to run. -/
def reproduceLoop (cfg : NEATConfiguration) (pop : List Genome)
    (draws : ℕ → ReproDraws) : ℕ → ℕ → ℕ → List Genome × ℕ
  | 0, _, c => ([], c)
  | k + 1, idx, c =>
      let d := draws idx
      let parent1 := selectParent pop d.p1a d.p1b d.p1c
      let parent2 := selectParent pop d.p2a d.p2b d.p2c
      let offspring := crossover d.cross d.crossId parent1 parent2
      let mo := mutate cfg d.mutDraws c offspring
      let rest := reproduceLoop cfg pop draws k (idx + 1) mo.2
      (mo.1 :: rest.1, rest.2)

/-- `NEATEngine.createNextGeneration`: per-species elitism (top
`ceil(members * elitism)` by fitness, verbatim copies), then reproduction
until the configured size is reached, then `slice(0, populationSize)`.  The
`while` loop adds exactly one genome per iteration, so it runs
`populationSize - |elites|` times (truncated subtraction). -/
def createNextGeneration (cfg : NEATConfiguration) (specs : List Species)
    (pop : List Genome) (draws : ℕ → ReproDraws) (c : ℕ) : List Genome × ℕ :=
  let elites := specs.flatMap (fun s => (sortByFitnessDesc s.members).take (eliteCount cfg s))
  let need := cfg.populationSize - elites.length
  let off := reproduceLoop cfg pop draws need 0 c
  ((elites ++ off.1).take cfg.populationSize, off.2)

/-! ## Evaluation -/

/-- `NEATEngine.evaluatePopulation` with the fitness oracle abstracted as a
fallible function (the source delegates to the external TensorFlow-based
evaluator).  Per genome, a successful result is written to `fitness` and the
age incremented; a failure is caught, `fitness` forced to 0 (no age bump —
the throw skips `genome.age++`) and an `evaluation-error` event recorded.
`Promise.all` completion order does not affect the per-slot results; events
are collected in population order. -/
def evaluatePopulation (oracle : Genome → Except String ℚ)
    (pop : List Genome) : List Genome × List (String × String) :=
  (pop.map (fun g =>
     match oracle g with
     | .ok f => { g with fitness := f, age := g.age + 1 }
     | .error _ => { g with fitness := 0 }),
   pop.filterMap (fun g =>
     match oracle g with
     | .ok _ => none
     | .error e => some (g.id, e)))

/-! ## Innovation-number traces

The only operations that mint innovation numbers are `createMinimalGenome`
(initial population construction; `initializePopulation` resets the counter
to 0 before minting) and `addConnectionMutation`. -/

/-- One connection-minting operation of a run. -/
inductive InnovOp where
  | minimal (w : ℕ → ℕ → ℚ)
  | addConn (g : Genome) (d : AddConnDraws)

/-- The innovation numbers stamped by one operation (read off the connections
the operation added), together with the updated counter. -/
def innovStep (cfg : NEATConfiguration) (c : ℕ) : InnovOp → List ℕ × ℕ
  | .minimal w =>
      let r := createMinimalGenome cfg w c
      (r.1.architecture.connections.map (fun conn => conn.innovation), r.2)
  | .addConn g d =>
      let r := addConnectionMutation d c g
      ((r.1.architecture.connections.drop g.architecture.connections.length).map
        (fun conn => conn.innovation), r.2)

/-- All innovation numbers stamped by a sequence of operations, in order of
emission, with the final counter. -/
def innovTrace (cfg : NEATConfiguration) : ℕ → List InnovOp → List ℕ × ℕ
  | c, [] => ([], c)
  | c, op :: ops =>
      let e := innovStep cfg c op
      let rest := innovTrace cfg e.2 ops
      (e.1 ++ rest.1, rest.2)

def oracleGood : Genome := { (default : Genome) with id := "good" }

def oracleBad : Genome := { (default : Genome) with id := "bad" }

def failingOracle : Genome → Except String ℚ :=
  fun g => if g.id = "bad" then Except.error "boom" else Except.ok 1

def smallConfiguration : NEATConfiguration :=
  { defaultConfiguration with inputSize := 1, outputSize := 1 }

def threeLayerGenome : Genome :=
  { (default : Genome) with
    architecture :=
      { layers :=
          [{ id := "input", type := .input, units := 2, activation := "linear",
             dropout := 0, batchNormalization := false },
           { id := "hidden_1", type := .hidden, units := 3, activation := "relu",
             dropout := 0, batchNormalization := false },
           { id := "output", type := .output, units := 1, activation := "softmax",
             dropout := 0, batchNormalization := false }]
        connections := []
        activationFunctions := ["linear", "relu", "softmax"]
        learningRate := 1/1000
        optimizer := "adam"
        lossFunction := "mse" } }

/-- A genome whose architecture has no connections at all. -/
def emptyConnectionGenome : Genome := { (default : Genome) with id := "empty" }

/-- A genome with a single connection. -/
def oneConnectionGenome : Genome :=
  { (default : Genome) with
    architecture :=
      { (default : Genome).architecture with
        connections := [{ fromId := "a", toId := "b", weight := 1/2,
                          enabled := true, innovation := 0 }] } }

def copyDraws : CrossDraws :=
  ⟨0, 0, 0, 0, fun _ => 0, fun _ => 0, fun _ => 0, fun _ => 0⟩

def mergeDraws : CrossDraws :=
  ⟨1/2, 0, 0, 0, fun _ => 0, fun _ => 0, fun _ => 0, fun _ => 0⟩

/-- Number of layers of a given role in a layer sequence. -/
def countRole (t : LayerType) (layers : List NeuralLayer) : ℕ :=
  layers.countP (fun l => l.type == t)

/-- A minimal-shape two-layer genome (one input, one output layer). -/
def twoLayerParent : Genome :=
  { (default : Genome) with
    architecture :=
      { layers :=
          [{ id := "input", type := .input, units := 2, activation := "linear",
             dropout := 0, batchNormalization := false },
           { id := "output", type := .output, units := 1, activation := "softmax",
             dropout := 0, batchNormalization := false }]
        connections := []
        activationFunctions := []
        learningRate := 1/1000
        optimizer := "adam"
        lossFunction := "mse" } }

def addNodeDrawsW : AddNodeDraws := ⟨"hidden_2", 0, 0, 0, 1/2, 0⟩

/-- Draws where only the learning-rate gate fires (all other gates draw 0.9,
failing every `Math.random() < rate` test), and the learning-rate factor
draw is 0 (factor 0.9). -/
def mutateDrawsLR : MutateDraws :=
  { newId := "mutant"
    addNodeGate := 9/10, addNodeDraws := ⟨"h", 0, 0, 0, 1/2, 0⟩
    addConnectionGate := 9/10, addConnectionDraws := ⟨0, 0, 0⟩
    removeNodeGate := 9/10, removeNodeIdx := 0
    removeConnectionGate := 9/10, removeConnectionIdx := 0
    mutateWeightsGate := 9/10, weightDraw := fun _ => 9/10,
    weightDelta := fun _ => 1/2
    mutateActivationGate := 9/10, activationDraw := fun _ => 9/10,
    activationIdx := fun _ => 0
    mutateLearningRateGate := 0, learningRateDraw := 0 }

/-- Draws where no gate fires at all. -/
def mutateDrawsNone : MutateDraws :=
  { mutateDrawsLR with mutateLearningRateGate := 9/10 }

/-- The speciation-pass invariant: the species' member lists partition the
processed genomes, and every processed genome's `species` field points at a
species containing it. -/
def SpeciationInv (st : SpeciationState) : Prop :=
  ((st.specs.flatMap (fun s => s.members)).Perm st.pop) ∧
  ∀ g ∈ st.pop, ∃ s ∈ st.specs, s.id = g.species ∧ g ∈ s.members

/-- A second connection-free genome, distinguishable from
`emptyConnectionGenome`. -/
def emptyGenome2 : Genome := { emptyConnectionGenome with id := "empty2" }

/-- Pass 1: one connection-free genome against no species. -/
def spePass1 : SpeciationState :=
  speciatePopulation defaultConfiguration [emptyConnectionGenome] []

/-- Pass 2: a connection-free genome never matches any species (its distance
is `NaN`), so it founds a new species while the old one goes empty and is
dropped. -/
def spePass2 : SpeciationState :=
  speciatePopulation defaultConfiguration [emptyConnectionGenome] spePass1.specs

/-- Pass 3: same again, starting from pass 2's surviving species list. -/
def spePass3 : SpeciationState :=
  speciatePopulation defaultConfiguration [emptyGenome2] spePass2.specs

theorem range'_glue (m : ℕ) :
    ∀ (s n : ℕ), List.range' s m ++ List.range' (s + m) n = List.range' s (m + n) := by
  induction m with
  | zero => intro s n; simp
  | succ k ih =>
      intro s n
      have hs : s + (k + 1) = s + 1 + k := by omega
      have hn : k + 1 + n = (k + n) + 1 := by omega
      rw [hs, hn, List.range'_succ, List.range'_succ, List.cons_append, ih (s + 1) n]

theorem minimalConnRow_spec (w : ℕ → ℕ → ℚ) (i : ℕ) :
    ∀ (js : List ℕ) (c : ℕ),
      (minimalConnRow w i js c).1.map (fun conn => conn.innovation) =
        List.range' c js.length ∧
      (minimalConnRow w i js c).2 = c + js.length := by
  intro js
  induction js with
  | nil => intro c; simp [minimalConnRow]
  | cons j js ih =>
      intro c
      have h := ih (c + 1)
      refine ⟨?_, ?_⟩
      · simp [minimalConnRow, List.range'_succ, h.1]
      · simp [minimalConnRow, h.2]; omega

theorem minimalConnRows_spec (w : ℕ → ℕ → ℚ) (outSize : ℕ) :
    ∀ (is : List ℕ) (c : ℕ),
      (minimalConnRows w outSize is c).1.map (fun conn => conn.innovation) =
        List.range' c (is.length * outSize) ∧
      (minimalConnRows w outSize is c).2 = c + is.length * outSize := by
  intro is
  induction is with
  | nil => intro c; simp [minimalConnRows]
  | cons i is ih =>
      intro c
      have hrow := minimalConnRow_spec w i (List.range outSize) c
      rw [List.length_range] at hrow
      have hrest := ih (c + outSize)
      refine ⟨?_, ?_⟩
      · simp only [minimalConnRows, List.map_append, hrow.1, hrow.2, hrest.1]
        rw [range'_glue]
        congr 1
        rw [List.length_cons, Nat.succ_mul]
        omega
      · simp only [minimalConnRows, hrow.2, hrest.2, List.length_cons]
        rw [Nat.succ_mul]
        omega

theorem createMinimalGenome_innov_spec (cfg : NEATConfiguration)
    (w : ℕ → ℕ → ℚ) (c : ℕ) :
    (createMinimalGenome cfg w c).1.architecture.connections.map
        (fun conn => conn.innovation) =
      List.range' c (cfg.inputSize * cfg.outputSize) ∧
    (createMinimalGenome cfg w c).2 = c + cfg.inputSize * cfg.outputSize := by
  have h := minimalConnRows_spec w cfg.outputSize (List.range cfg.inputSize) c
  simpa [createMinimalGenome] using h

theorem addConnectionMutation_innov_spec (d : AddConnDraws) (c : ℕ) (g : Genome) :
    ∃ k, ((addConnectionMutation d c g).1.architecture.connections.drop
            g.architecture.connections.length).map (fun conn => conn.innovation) =
          List.range' c k ∧
         (addConnectionMutation d c g).2 = c + k := by
  by_cases h1 : g.architecture.layers.length > 2
  · by_cases h2 :
      (g.architecture.layers.getD
        (d.fromIdx % (g.architecture.layers.length - 1)) default).id ≠
      (g.architecture.layers.getD
        (d.toIdx % (g.architecture.layers.length - 1) + 1) default).id
    · simp only [addConnectionMutation]
      rw [if_pos h1, if_pos h2]
      refine ⟨1, ?_, rfl⟩
      simp [List.drop_left, List.range'_succ]
    · simp only [addConnectionMutation]
      rw [if_pos h1, if_neg h2]
      exact ⟨0, by simp [List.drop_length], rfl⟩
  · simp only [addConnectionMutation]
    rw [if_neg h1]
    exact ⟨0, by simp [List.drop_length], rfl⟩

theorem innovStep_spec (cfg : NEATConfiguration) (c : ℕ) (op : InnovOp) :
    ∃ k, (innovStep cfg c op).1 = List.range' c k ∧
         (innovStep cfg c op).2 = c + k := by
  cases op with
  | minimal w =>
      have h := createMinimalGenome_innov_spec cfg w c
      exact ⟨cfg.inputSize * cfg.outputSize, h.1, h.2⟩
  | addConn g d =>
      obtain ⟨k, h1, h2⟩ := addConnectionMutation_innov_spec d c g
      exact ⟨k, h1, h2⟩

theorem innovTrace_spec (cfg : NEATConfiguration) (ops : List InnovOp) :
    ∀ (c : ℕ), ∃ k, (innovTrace cfg c ops).1 = List.range' c k ∧
      (innovTrace cfg c ops).2 = c + k := by
  induction ops with
  | nil => intro c; exact ⟨0, rfl, rfl⟩
  | cons op ops ih =>
      intro c
      obtain ⟨k1, h1, h2⟩ := innovStep_spec cfg c op
      obtain ⟨k2, h3, h4⟩ := ih (innovStep cfg c op).2
      refine ⟨k1 + k2, ?_, ?_⟩
      · show (innovStep cfg c op).1 ++ (innovTrace cfg (innovStep cfg c op).2 ops).1 =
          List.range' c (k1 + k2)
        rw [h1, h3, h2, range'_glue]
      · show (innovTrace cfg (innovStep cfg c op).2 ops).2 = c + (k1 + k2)
        rw [h4, h2]; omega

/-- C4: within one run the innovation counter starts at 0 (the
`initializePopulation` reset) and every connection-minting operation
(`createMinimalGenome`, `addConnectionMutation`) emits exactly the next
consecutive numbers: the full emission trace of any operation sequence is
`0, 1, ..., finalCounter - 1`, hence strictly increasing with no number
skipped, decremented or repeated. -/
theorem innovation_numbers_strictly_monotonic (cfg : NEATConfiguration)
    (ops : List InnovOp) :
    (innovTrace cfg 0 ops).1 = List.range ((innovTrace cfg 0 ops).2) ∧
    List.Pairwise (· < ·) (innovTrace cfg 0 ops).1 := by
  obtain ⟨k, h1, h2⟩ := innovTrace_spec cfg ops 0
  have hr : (innovTrace cfg 0 ops).1 = List.range k := by
    rw [h1, List.range_eq_range']
  refine ⟨?_, ?_⟩
  · rw [hr, h2, Nat.zero_add]
  · rw [hr]; exact List.pairwise_lt_range k

/-! ## Population conservation -/

theorem reproduceLoop_length (cfg : NEATConfiguration) (pop : List Genome)
    (draws : ℕ → ReproDraws) :
    ∀ (k idx c : ℕ), (reproduceLoop cfg pop draws k idx c).1.length = k := by
  intro k
  induction k with
  | zero => intro idx c; rfl
  | succ n ih => intro idx c; simp [reproduceLoop, ih]

/-- C1: `createNextGeneration` always returns exactly `populationSize`
genomes: the reproduction loop tops the elite list up to `populationSize`
(one offspring per iteration) and the final `slice(0, populationSize)`
truncates any elitism overshoot, whatever the species list, the elitism
fraction, and the current population. -/
theorem createNextGeneration_population_size (cfg : NEATConfiguration)
    (specs : List Species) (pop : List Genome) (draws : ℕ → ReproDraws)
    (c : ℕ) :
    (createNextGeneration cfg specs pop draws c).1.length = cfg.populationSize := by
  unfold createNextGeneration
  simp only [List.length_take, List.length_append, reproduceLoop_length]
  omega

/-! ## Evaluation error containment -/

theorem getD_map_of_lt {α β : Type} [Inhabited α] [Inhabited β] (f : α → β)
    (l : List α) (i : ℕ) (hi : i < l.length) :
    (l.map f).getD i default = f (l.getD i default) := by
  rw [List.getD_eq_getElem?_getD, List.getD_eq_getElem?_getD,
    List.getElem?_map, List.getElem?_eq_getElem hi]
  rfl

theorem getD_mem_of_lt {α : Type} (l : List α) (i : ℕ) (d : α)
    (h : i < l.length) : l.getD i d ∈ l := by
  rw [List.getD_eq_getElem?_getD, List.getElem?_eq_getElem h]
  exact List.getElem_mem h

/-- C9: a fitness-oracle failure for one genome is caught per-genome: that
genome's fitness is forced to 0 (its age untouched, as the throw skips
`genome.age++`), an `evaluation-error` event carrying the genome id is
recorded, every other genome's slot is still produced (the result has one
genome per input genome, successes keeping their oracle fitness and aging),
and `evaluatePopulation` is a total function — no error escapes to the
caller. -/
theorem evaluatePopulation_oracle_failure_contained
    (oracle : Genome → Except String ℚ) (pop : List Genome) :
    (evaluatePopulation oracle pop).1.length = pop.length ∧
    ∀ i, i < pop.length →
      (∀ e, oracle (pop.getD i default) = .error e →
        ((evaluatePopulation oracle pop).1.getD i default).fitness = 0 ∧
        ((evaluatePopulation oracle pop).1.getD i default).age =
          (pop.getD i default).age ∧
        ((pop.getD i default).id, e) ∈ (evaluatePopulation oracle pop).2) ∧
      (∀ f, oracle (pop.getD i default) = .ok f →
        ((evaluatePopulation oracle pop).1.getD i default).fitness = f ∧
        ((evaluatePopulation oracle pop).1.getD i default).age =
          (pop.getD i default).age + 1) := by
  constructor
  · simp [evaluatePopulation]
  · intro i hi
    have hgetD : (evaluatePopulation oracle pop).1.getD i default =
        (match oracle (pop.getD i default) with
         | .ok f => { (pop.getD i default) with fitness := f, age := (pop.getD i default).age + 1 }
         | .error _ => { (pop.getD i default) with fitness := 0 }) := by
      show (pop.map _).getD i default = _
      rw [getD_map_of_lt _ pop i hi]
    constructor
    · intro e he
      refine ⟨?_, ?_, ?_⟩
      · rw [hgetD, he]
      · rw [hgetD, he]
      · show _ ∈ pop.filterMap _
        rw [List.mem_filterMap]
        exact ⟨pop.getD i default, getD_mem_of_lt pop i default hi, by rw [he]⟩
    · intro f hf
      exact ⟨by rw [hgetD, hf], by rw [hgetD, hf]⟩

/-- Witness for C9 at a concrete two-genome population with one failing
oracle call: the failed genome gets fitness 0 and an event, the other still
gets its oracle fitness. -/
theorem evaluatePopulation_oracle_failure_contained_witness :
    (([oracleGood, oracleBad].getD 1 default).id, "boom") ∈
      (evaluatePopulation failingOracle [oracleGood, oracleBad]).2 ∧
    ((evaluatePopulation failingOracle [oracleGood, oracleBad]).1.getD 1 default).fitness = 0 ∧
    ((evaluatePopulation failingOracle [oracleGood, oracleBad]).1.getD 0 default).fitness = 1 := by
  have h := evaluatePopulation_oracle_failure_contained failingOracle
    [oracleGood, oracleBad]
  have h1 := (h.2 1 (by decide)).1 "boom" (by rfl)
  exact ⟨h1.2.2, h1.1, ((h.2 0 (by decide)).2 1 (by rfl)).1⟩

/-! ## Connection endpoints vs. layer ids -/

/-- C10 counterexample: with `inputSize = outputSize = 1` the minimal
genome's single connection runs from `"input_0"` to `"output_0"`, but the
genome's two layers are named `"input"` and `"output"` — neither endpoint of
the connection equals the id of any layer of that genome. -/
theorem minimal_genome_connection_ids_dangle :
    ¬ (∀ conn ∈ (createMinimalGenome smallConfiguration (fun _ _ => 0) 0).1.architecture.connections,
        conn.fromId ∈ (createMinimalGenome smallConfiguration (fun _ _ => 0) 0).1.architecture.layers.map (fun l => l.id) ∧
        conn.toId ∈ (createMinimalGenome smallConfiguration (fun _ _ => 0) 0).1.architecture.layers.map (fun l => l.id)) := by
  decide

/-- C10 amended: connections minted by `addConnectionMutation` do take both
endpoints from ids of layers present in the genome (whose layer list the
operator leaves unchanged); the minimal genome's initial connections instead
use synthetic per-unit names `input_i`/`output_j` matching no layer id. -/
theorem addConnectionMutation_endpoints_in_layers (d : AddConnDraws) (c : ℕ)
    (g : Genome) :
    (addConnectionMutation d c g).1.architecture.layers = g.architecture.layers ∧
    ∀ conn ∈ (addConnectionMutation d c g).1.architecture.connections.drop
        g.architecture.connections.length,
      conn.fromId ∈ g.architecture.layers.map (fun l => l.id) ∧
      conn.toId ∈ g.architecture.layers.map (fun l => l.id) := by
  by_cases h1 : g.architecture.layers.length > 2
  · by_cases h2 :
      (g.architecture.layers.getD
        (d.fromIdx % (g.architecture.layers.length - 1)) default).id ≠
      (g.architecture.layers.getD
        (d.toIdx % (g.architecture.layers.length - 1) + 1) default).id
    · simp only [addConnectionMutation]
      rw [if_pos h1, if_pos h2]
      refine ⟨rfl, ?_⟩
      intro conn hconn
      simp only [List.drop_left, List.mem_singleton] at hconn
      subst hconn
      have hpos : 0 < g.architecture.layers.length - 1 := by omega
      have hfrom : d.fromIdx % (g.architecture.layers.length - 1) <
          g.architecture.layers.length := by
        have := Nat.mod_lt d.fromIdx hpos
        omega
      have hto : d.toIdx % (g.architecture.layers.length - 1) + 1 <
          g.architecture.layers.length := by
        have := Nat.mod_lt d.toIdx hpos
        omega
      constructor
      · exact List.mem_map_of_mem _ (getD_mem_of_lt _ _ _ hfrom)
      · exact List.mem_map_of_mem _ (getD_mem_of_lt _ _ _ hto)
    · simp only [addConnectionMutation]
      rw [if_pos h1, if_neg h2]
      exact ⟨rfl, by simp [List.drop_length]⟩
  · simp only [addConnectionMutation]
    rw [if_neg h1]
    exact ⟨rfl, by simp [List.drop_length]⟩

/-- Witness for the amended C10 at a concrete three-layer genome: the
connection minted there has both endpoints among the genome's layer ids. -/
theorem addConnectionMutation_endpoints_in_layers_witness :
    (((addConnectionMutation ⟨0, 1, 0⟩ 7 threeLayerGenome).1.architecture.connections.drop
        threeLayerGenome.architecture.connections.length).getD 0 default).fromId ∈
      threeLayerGenome.architecture.layers.map (fun l => l.id) ∧
    (((addConnectionMutation ⟨0, 1, 0⟩ 7 threeLayerGenome).1.architecture.connections.drop
        threeLayerGenome.architecture.connections.length).getD 0 default).toId ∈
      threeLayerGenome.architecture.layers.map (fun l => l.id) :=
  (addConnectionMutation_endpoints_in_layers ⟨0, 1, 0⟩ 7 threeLayerGenome).2 _
    (getD_mem_of_lt _ 0 default (by decide))

/-! ## Compatibility-distance identity and non-negativity -/

theorem foldl_maxInnovStep_some (cs : List ConnectionGene) :
    ∀ (m : ℕ), ∃ k, cs.foldl maxInnovStep (some m) = some k := by
  induction cs with
  | nil => intro m; exact ⟨m, rfl⟩
  | cons c cs ih =>
      intro m
      simpa [maxInnovStep] using ih (Nat.max m c.innovation)

theorem maxInnovationOf_isSome (cs : List ConnectionGene) (h : cs ≠ []) :
    ∃ k, maxInnovationOf cs = some k := by
  cases cs with
  | nil => exact absurd rfl h
  | cons c cs =>
      show ∃ k, (c :: cs).foldl maxInnovStep none = some k
      simpa [maxInnovStep] using foldl_maxInnovStep_some cs c.innovation

theorem distStep_self_zero (cs : List ConnectionGene) (m1 m2 : Option ℕ)
    (acc : DistAcc) (i : ℕ) (he : acc.excess = 0) (hd : acc.disjoint = 0)
    (hw : acc.weightDiff = 0) :
    (distStep cs cs m1 m2 acc i).excess = 0 ∧
    (distStep cs cs m1 m2 acc i).disjoint = 0 ∧
    (distStep cs cs m1 m2 acc i).weightDiff = 0 := by
  rcases h : cs.find? (fun c => c.innovation == i) with _ | c <;>
    simp [distStep, h, he, hd, hw]

theorem distFold_self_zero (cs : List ConnectionGene) (m1 m2 : Option ℕ) :
    ∀ (l : List ℕ) (acc : DistAcc), acc.excess = 0 → acc.disjoint = 0 →
      acc.weightDiff = 0 →
      (l.foldl (distStep cs cs m1 m2) acc).excess = 0 ∧
      (l.foldl (distStep cs cs m1 m2) acc).disjoint = 0 ∧
      (l.foldl (distStep cs cs m1 m2) acc).weightDiff = 0 := by
  intro l
  induction l with
  | nil => intro acc he hd hw; exact ⟨he, hd, hw⟩
  | cons i l ih =>
      intro acc he hd hw
      have h := distStep_self_zero cs m1 m2 acc i he hd hw
      exact ih (distStep cs cs m1 m2 acc i) h.1 h.2.1 h.2.2

theorem distStep_weightDiff_nonneg (cs1 cs2 : List ConnectionGene)
    (m1 m2 : Option ℕ) (acc : DistAcc) (i : ℕ) (hw : 0 ≤ acc.weightDiff) :
    0 ≤ (distStep cs1 cs2 m1 m2 acc i).weightDiff := by
  rcases h1 : cs1.find? (fun c => c.innovation == i) with _ | c1 <;>
    rcases h2 : cs2.find? (fun c => c.innovation == i) with _ | c2 <;>
      simp only [distStep, h1, h2]
  · exact hw
  · split <;> exact hw
  · split <;> exact hw
  · exact add_nonneg hw (abs_nonneg _)

theorem distFold_weightDiff_nonneg (cs1 cs2 : List ConnectionGene)
    (m1 m2 : Option ℕ) :
    ∀ (l : List ℕ) (acc : DistAcc), 0 ≤ acc.weightDiff →
      0 ≤ (l.foldl (distStep cs1 cs2 m1 m2) acc).weightDiff := by
  intro l
  induction l with
  | nil => intro acc hw; exact hw
  | cons i l ih =>
      intro acc hw
      exact ih _ (distStep_weightDiff_nonneg cs1 cs2 m1 m2 acc i hw)

/-- C5 amended: `distance(A, A) = 0` holds for every genome with at least one
connection, and any defined (non-`NaN`) distance is non-negative whenever the
three coefficients are non-negative; but when both genomes have zero
connections the source divides `0/0` and produces `NaN` (`none` here), so the
identity fails exactly on connection-free genomes. -/
theorem getCompatibilityDistance_identity_and_nonneg :
    (∀ (cfg : NEATConfiguration) (A : Genome),
       A.architecture.connections ≠ [] →
       getCompatibilityDistance cfg A A = some 0) ∧
    (∀ (cfg : NEATConfiguration) (A B : Genome) (q : ℚ),
       0 ≤ cfg.compatibility.c1 → 0 ≤ cfg.compatibility.c2 →
       0 ≤ cfg.compatibility.c3 →
       getCompatibilityDistance cfg A B = some q → 0 ≤ q) := by
  constructor
  · intro cfg A h
    obtain ⟨m, hm⟩ := maxInnovationOf_isSome A.architecture.connections h
    have hz := distFold_self_zero A.architecture.connections (some m) (some m)
      (List.range (Nat.max ((some m : Option ℕ).getD 0) ((some m : Option ℕ).getD 0) + 1))
      { excess := 0, disjoint := 0, weightDiff := 0, matching := 0 }
      rfl rfl rfl
    simp only [getCompatibilityDistance, hm]
    rw [hz.1, hz.2.1, hz.2.2]
    simp
  · intro cfg A B q h1 h2 h3 heq
    rcases hm1 : maxInnovationOf A.architecture.connections with _ | m1 <;>
      rcases hm2 : maxInnovationOf B.architecture.connections with _ | m2 <;>
        simp only [getCompatibilityDistance, hm1, hm2, Option.some.injEq,
          reduceCtorEq] at heq
    all_goals
      subst heq
      refine add_nonneg (add_nonneg ?_ ?_) ?_
      · exact div_nonneg (mul_nonneg h1 (Nat.cast_nonneg _)) (Nat.cast_nonneg _)
      · exact div_nonneg (mul_nonneg h2 (Nat.cast_nonneg _)) (Nat.cast_nonneg _)
      · refine mul_nonneg h3 ?_
        split
        · exact div_nonneg
            (distFold_weightDiff_nonneg _ _ _ _ _ _ (by norm_num))
            (Nat.cast_nonneg _)
        · exact le_refl 0

/-- C5 counterexample: for a genome with zero connections the source computes
`N = 0` and `0/0 = NaN`, so the self-distance is not 0 (it is not even a
number). -/
theorem distance_self_zero_connections_not_zero :
    getCompatibilityDistance defaultConfiguration emptyConnectionGenome
      emptyConnectionGenome ≠ some 0 := by
  decide

/-- Witness for the amended C5: self-distance of a one-connection genome is 0,
and that defined distance is non-negative. -/
theorem getCompatibilityDistance_identity_and_nonneg_witness :
    getCompatibilityDistance defaultConfiguration oneConnectionGenome
      oneConnectionGenome = some 0 ∧ (0 : ℚ) ≤ 0 := by
  have h := getCompatibilityDistance_identity_and_nonneg
  have h1 := h.1 defaultConfiguration oneConnectionGenome (by decide)
  exact ⟨h1, h.2 defaultConfiguration oneConnectionGenome oneConnectionGenome 0
    (by norm_num [defaultConfiguration]) (by norm_num [defaultConfiguration])
    (by norm_num [defaultConfiguration]) h1⟩

/-! ## Crossover structure -/

theorem crossLayers_nil_left (d : CrossDraws) :
    ∀ (L : List NeuralLayer) (i : ℕ), crossLayers d i [] L = L := by
  intro L
  induction L with
  | nil => intro i; simp [crossLayers]
  | cons l t ih => intro i; simp [crossLayers, ih]

theorem crossLayers_nil_right (d : CrossDraws) :
    ∀ (L : List NeuralLayer) (i : ℕ), crossLayers d i L [] = L := by
  intro L
  induction L with
  | nil => intro i; simp [crossLayers]
  | cons l t ih => intro i; simp [crossLayers, ih]

theorem crossLayerPair_id (d : CrossDraws) (i : ℕ) (l1 l2 : NeuralLayer) :
    (crossLayerPair d i l1 l2).id = l1.id := rfl

theorem crossLayerPair_type (d : CrossDraws) (i : ℕ) (l1 l2 : NeuralLayer) :
    (crossLayerPair d i l1 l2).type = l1.type := rfl

theorem crossLayers_id_type (d : CrossDraws) :
    ∀ (L1 L2 : List NeuralLayer) (i : ℕ),
      (crossLayers d i L1 L2).map (fun l => (l.id, l.type)) =
        if L2.length ≤ L1.length then L1.map (fun l => (l.id, l.type))
        else L1.map (fun l => (l.id, l.type)) ++
          (L2.drop L1.length).map (fun l => (l.id, l.type)) := by
  intro L1
  induction L1 with
  | nil =>
      intro L2 i
      cases L2 with
      | nil => simp [crossLayers]
      | cons l2 t2 => simp [crossLayers_nil_left]
  | cons l1 t1 ih =>
      intro L2 i
      cases L2 with
      | nil => simp [crossLayers_nil_right]
      | cons l2 t2 =>
          simp only [crossLayers, List.map_cons, ih t2 (i + 1),
            List.length_cons, List.drop_succ_cons]
          by_cases hle : t2.length ≤ t1.length
          · simp [hle, crossLayerPair]
          · simp [hle, crossLayerPair]

theorem crossLayers_getD (d : CrossDraws) :
    ∀ (L1 L2 : List NeuralLayer) (i j : ℕ), j < L1.length → j < L2.length →
      (crossLayers d i L1 L2).getD j default =
        crossLayerPair d (i + j) (L1.getD j default) (L2.getD j default) := by
  intro L1
  induction L1 with
  | nil => intro L2 i j h1 h2; simp at h1
  | cons l1 t1 ih =>
      intro L2 i j h1 h2
      cases L2 with
      | nil => simp at h2
      | cons l2 t2 =>
          cases j with
          | zero => simp [crossLayers]
          | succ k =>
              have hk : i + 1 + k = i + (k + 1) := by omega
              simp only [crossLayers, List.getD_cons_succ]
              rw [ih t2 (i + 1) k (by simpa using h1) (by simpa using h2), hk]

theorem crossLayers_length (d : CrossDraws) :
    ∀ (L1 L2 : List NeuralLayer) (i : ℕ),
      (crossLayers d i L1 L2).length = Nat.max L1.length L2.length := by
  intro L1
  induction L1 with
  | nil => intro L2 i; rw [crossLayers_nil_left]; simp
  | cons l1 t1 ih =>
      intro L2 i
      cases L2 with
      | nil => rw [crossLayers_nil_right]; simp
      | cons l2 t2 =>
          simp only [crossLayers, List.length_cons, ih t2 (i + 1)]
          simp [Nat.max_def]
          split_ifs <;> omega

theorem crossLayers_getD_left (d : CrossDraws) :
    ∀ (L1 L2 : List NeuralLayer) (i j : ℕ), L2.length ≤ j → j < L1.length →
      (crossLayers d i L1 L2).getD j default = L1.getD j default := by
  intro L1
  induction L1 with
  | nil => intro L2 i j h2 h1; simp at h1
  | cons l1 t1 ih =>
      intro L2 i j h2 h1
      cases L2 with
      | nil => rw [crossLayers_nil_right]
      | cons l2 t2 =>
          cases j with
          | zero => simp at h2
          | succ k =>
              simp only [crossLayers, List.getD_cons_succ]
              exact ih t2 (i + 1) k (by simpa using h2) (by simpa using h1)

theorem crossLayers_getD_right (d : CrossDraws) :
    ∀ (L1 L2 : List NeuralLayer) (i j : ℕ), L1.length ≤ j → j < L2.length →
      (crossLayers d i L1 L2).getD j default = L2.getD j default := by
  intro L1
  induction L1 with
  | nil => intro L2 i j h1 h2; rw [crossLayers_nil_left]
  | cons l1 t1 ih =>
      intro L2 i j h1 h2
      cases L2 with
      | nil => simp at h2
      | cons l2 t2 =>
          cases j with
          | zero => simp at h1
          | succ k =>
              simp only [crossLayers, List.getD_cons_succ]
              exact ih t2 (i + 1) k (by simpa using h1) (by simpa using h2)

/-- C7: crossover either (first draw below 0.5) returns parent 1 verbatim, or
builds an offspring whose connection list is the empty array it was
initialized with (never populated) and whose layer sequence merges the
parents positionally: one layer per index up to the longer parent's length;
at an index where both parents have a layer, `{...layer1}` keeps parent 1's
id and type and the four attributes are drawn per index; at an index where
only one parent has a layer, that sole parent's layer is copied as-is (the
whole layer value — units, activation, dropout, batchNormalization). -/
theorem crossover_copy_or_positional_merge (d : CrossDraws) (newId : String)
    (p1 p2 : Genome) :
    (d.copyDraw < 1/2 → crossover d newId p1 p2 = p1) ∧
    (¬ d.copyDraw < 1/2 →
      (crossover d newId p1 p2).architecture.connections = [] ∧
      ((crossover d newId p1 p2).architecture.layers.map (fun l => (l.id, l.type)) =
        if p2.architecture.layers.length ≤ p1.architecture.layers.length
        then p1.architecture.layers.map (fun l => (l.id, l.type))
        else p1.architecture.layers.map (fun l => (l.id, l.type)) ++
          (p2.architecture.layers.drop p1.architecture.layers.length).map
            (fun l => (l.id, l.type))) ∧
      (∀ j, j < p1.architecture.layers.length →
        j < p2.architecture.layers.length →
        (crossover d newId p1 p2).architecture.layers.getD j default =
          crossLayerPair d j (p1.architecture.layers.getD j default)
            (p2.architecture.layers.getD j default)) ∧
      (crossover d newId p1 p2).architecture.layers.length =
        Nat.max p1.architecture.layers.length p2.architecture.layers.length ∧
      (∀ j, p2.architecture.layers.length ≤ j →
        j < p1.architecture.layers.length →
        (crossover d newId p1 p2).architecture.layers.getD j default =
          p1.architecture.layers.getD j default) ∧
      (∀ j, p1.architecture.layers.length ≤ j →
        j < p2.architecture.layers.length →
        (crossover d newId p1 p2).architecture.layers.getD j default =
          p2.architecture.layers.getD j default)) := by
  constructor
  · intro h
    unfold crossover
    rw [if_pos h]
  · intro h
    unfold crossover
    rw [if_neg h]
    refine ⟨rfl, ?_, ?_, ?_, ?_, ?_⟩
    · exact crossLayers_id_type d _ _ 0
    · intro j h1 h2
      have := crossLayers_getD d p1.architecture.layers p2.architecture.layers
        0 j h1 h2
      simpa using this
    · exact crossLayers_length d _ _ 0
    · intro j h2 h1
      exact crossLayers_getD_left d p1.architecture.layers
        p2.architecture.layers 0 j h2 h1
    · intro j h1 h2
      exact crossLayers_getD_right d p1.architecture.layers
        p2.architecture.layers 0 j h1 h2

/-- Witness for C7 at concrete draws: the copy branch returns parent 1
itself; the merge branch leaves the offspring's connections empty and, with
a zero-layer parent 1 and a three-layer parent 2, copies parent 2's layer at
a sole-parent index verbatim. -/
theorem crossover_copy_or_positional_merge_witness :
    crossover copyDraws "off" oneConnectionGenome threeLayerGenome =
      oneConnectionGenome ∧
    (crossover mergeDraws "off" oneConnectionGenome threeLayerGenome).architecture.connections = [] ∧
    (crossover mergeDraws "off" oneConnectionGenome threeLayerGenome).architecture.layers.getD 0 default =
      threeLayerGenome.architecture.layers.getD 0 default :=
  ⟨(crossover_copy_or_positional_merge copyDraws "off" oneConnectionGenome
      threeLayerGenome).1 (by norm_num [copyDraws]),
   ((crossover_copy_or_positional_merge mergeDraws "off" oneConnectionGenome
      threeLayerGenome).2 (by norm_num [mergeDraws])).1,
   ((crossover_copy_or_positional_merge mergeDraws "off" oneConnectionGenome
      threeLayerGenome).2 (by norm_num [mergeDraws])).2.2.2.2.2 0 (by decide)
      (by decide)⟩

/-! ## Layer-role counting -/

theorem countP_congr_mem {α : Type} (p q : α → Bool) :
    ∀ (l : List α), (∀ x ∈ l, p x = q x) → l.countP p = l.countP q := by
  intro l
  induction l with
  | nil => intro h; rfl
  | cons a t ih =>
      intro h
      rw [List.countP_cons, List.countP_cons, h a (by simp),
        ih (fun x hx => h x (by simp [hx]))]

theorem countP_insert {α : Type} (p : α → Bool) (l : List α) (x : α) (idx : ℕ) :
    ((l.take idx ++ [x]) ++ l.drop idx).countP p =
      l.countP p + (if p x then 1 else 0) := by
  rw [List.countP_append, List.countP_append]
  conv_rhs => rw [← List.take_append_drop idx l, List.countP_append]
  simp [List.countP_cons]
  omega

theorem countRole_eq_of_idType_map_eq {L1 L2 : List NeuralLayer}
    (h : L1.map (fun l => (l.id, l.type)) = L2.map (fun l => (l.id, l.type)))
    (t : LayerType) : countRole t L1 = countRole t L2 := by
  have htype : L1.map (fun l => l.type) = L2.map (fun l => l.type) := by
    have := congrArg (List.map Prod.snd) h
    simpa [List.map_map, Function.comp] using this
  unfold countRole
  calc L1.countP (fun l => l.type == t)
      = (L1.map (fun l => l.type)).countP (fun x => x == t) := by
        rw [List.countP_map]; rfl
    _ = (L2.map (fun l => l.type)).countP (fun x => x == t) := by rw [htype]
    _ = L2.countP (fun l => l.type == t) := by rw [List.countP_map]; rfl

theorem countRole_mapIdxFrom (f : ℕ → NeuralLayer → NeuralLayer)
    (hf : ∀ i l, (f i l).type = l.type) (t : LayerType) :
    ∀ (l : List NeuralLayer) (i : ℕ),
      countRole t (mapIdxFrom f i l) = countRole t l := by
  intro l
  induction l with
  | nil => intro i; rfl
  | cons a as ih =>
      intro i
      unfold countRole at *
      simp only [mapIdxFrom]
      rw [List.countP_cons, List.countP_cons, hf i a, ih (i + 1)]

theorem countRole_remove_other (L : List NeuralLayer) (v : NeuralLayer)
    (hvl : v ∈ L) (hnd : (L.map (fun l => l.id)).Nodup) (t : LayerType)
    (hvt : ¬ v.type = t) :
    countRole t (L.filter (fun l => l.id != v.id)) = countRole t L := by
  unfold countRole
  rw [List.countP_filter]
  apply countP_congr_mem
  intro x hx
  by_cases hxt : (x.type == t) = true
  · have hxv : x ≠ v := by
      intro he
      subst he
      exact hvt (by simpa using hxt)
    have hxid : (x.id != v.id) = true := by
      simp only [bne_iff_ne, ne_eq]
      intro he
      exact hxv (List.inj_on_of_nodup_map hnd hx hvl he)
    simp [hxt, hxid]
  · have h0 : (x.type == t) = false := by simpa using hxt
    simp [h0]

theorem mutateActivation_step_type (a1 : ℕ → ℚ) (a2 : ℕ → ℕ) (i : ℕ)
    (l : NeuralLayer) :
    (if l.type ≠ LayerType.input ∧ a1 i < 1/10 then
      { l with activation :=
          (activationFunctionTable.getD
            (a2 i % activationFunctionTable.length) "") }
     else l).type = l.type := by
  split <;> rfl

/-- Minimal genome: exactly one input layer, one output layer, no hidden. -/
theorem createMinimalGenome_role_counts (cfg : NEATConfiguration)
    (w : ℕ → ℕ → ℚ) (c : ℕ) :
    countRole .input (createMinimalGenome cfg w c).1.architecture.layers = 1 ∧
    countRole .output (createMinimalGenome cfg w c).1.architecture.layers = 1 ∧
    countRole .hidden (createMinimalGenome cfg w c).1.architecture.layers = 0 :=
  ⟨rfl, rfl, rfl⟩

theorem addNodeMutation_role_counts (cfg : NEATConfiguration)
    (d : AddNodeDraws) (g : Genome)
    (hh : countRole .hidden g.architecture.layers ≤ cfg.maxHiddenLayers) :
    countRole .input (addNodeMutation cfg d g).architecture.layers =
      countRole .input g.architecture.layers ∧
    countRole .output (addNodeMutation cfg d g).architecture.layers =
      countRole .output g.architecture.layers ∧
    countRole .hidden (addNodeMutation cfg d g).architecture.layers ≤
      cfg.maxHiddenLayers := by
  by_cases h : (g.architecture.layers.filter
      (fun l => l.type == LayerType.hidden)).length < cfg.maxHiddenLayers
  · simp only [addNodeMutation]
    rw [if_pos h]
    refine ⟨?_, ?_, ?_⟩
    · unfold countRole
      rw [countP_insert]
      rfl
    · unfold countRole
      rw [countP_insert]
      rfl
    · unfold countRole
      rw [countP_insert, List.countP_eq_length_filter]
      simpa using h
  · simp only [addNodeMutation]
    rw [if_neg h]
    exact ⟨rfl, rfl, hh⟩

theorem removeNodeMutation_role_counts (k : ℕ) (g : Genome)
    (hnd : (g.architecture.layers.map (fun l => l.id)).Nodup) :
    countRole .input (removeNodeMutation k g).architecture.layers =
      countRole .input g.architecture.layers ∧
    countRole .output (removeNodeMutation k g).architecture.layers =
      countRole .output g.architecture.layers ∧
    countRole .hidden (removeNodeMutation k g).architecture.layers ≤
      countRole .hidden g.architecture.layers := by
  by_cases h : (g.architecture.layers.filter
      (fun l => l.type == LayerType.hidden)).length > 0
  · have hk := Nat.mod_lt k h
    have hvm := getD_mem_of_lt
      (g.architecture.layers.filter (fun l => l.type == LayerType.hidden))
      (k % (g.architecture.layers.filter
        (fun l => l.type == LayerType.hidden)).length) default hk
    have hvl := List.mem_of_mem_filter hvm
    have hvt : ((g.architecture.layers.filter
        (fun l => l.type == LayerType.hidden)).getD
          (k % (g.architecture.layers.filter
            (fun l => l.type == LayerType.hidden)).length) default).type =
        LayerType.hidden := by
      have := List.of_mem_filter hvm
      simpa using this
    simp only [removeNodeMutation]
    rw [if_pos h]
    refine ⟨?_, ?_, ?_⟩
    · exact countRole_remove_other _ _ hvl hnd _ (by rw [hvt]; intro hc; cases hc)
    · exact countRole_remove_other _ _ hvl hnd _ (by rw [hvt]; intro hc; cases hc)
    · exact (List.filter_sublist _).countP_le _
  · simp only [removeNodeMutation]
    rw [if_neg h]
    exact ⟨rfl, rfl, le_refl _⟩

theorem crossover_role_counts (d : CrossDraws) (newId : String) (p1 p2 : Genome)
    (hlen : p2.architecture.layers.length ≤ p1.architecture.layers.length)
    (t : LayerType) :
    countRole t (crossover d newId p1 p2).architecture.layers =
      countRole t p1.architecture.layers := by
  by_cases h : d.copyDraw < 1/2
  · unfold crossover
    rw [if_pos h]
  · unfold crossover
    rw [if_neg h]
    have hmap := crossLayers_id_type d p1.architecture.layers
      p2.architecture.layers 0
    rw [if_pos hlen] at hmap
    exact countRole_eq_of_idType_map_eq hmap t

/-- C6 counterexample: crossing over a two-layer parent 1 with a three-layer
parent 2 in the merging branch produces an offspring with TWO output-typed
layers (parent 1's output at index 1, plus parent 2's trailing output copied
verbatim at index 2). -/
theorem crossover_duplicates_output_layer :
    countRole .output
      (crossover mergeDraws "off" twoLayerParent threeLayerGenome).architecture.layers = 2 := by
  have h : ¬ ((mergeDraws.copyDraw : ℚ) < 1/2) := by norm_num [mergeDraws]
  unfold crossover
  rw [if_neg h]
  show countRole .output (crossLayers mergeDraws 0 twoLayerParent.architecture.layers
    threeLayerGenome.architecture.layers) = 2
  norm_num [twoLayerParent, threeLayerGenome, crossLayers, crossLayerPair,
    countRole, List.countP_cons, List.countP_nil, beq_iff_eq, mergeDraws]
  decide

/-- C6 amended: initial construction yields exactly one input and one output
layer and no hidden layer; every mutation operator preserves the input/output
counts (remove-node requiring the genome's layer ids to be distinct, since it
removes by id) and keeps hidden layers within `maxHiddenLayers`; crossover
preserves the role counts of parent 1 whenever parent 2 has no more layers
than parent 1 — but (per the counterexample) not when parent 2 is strictly
longer. -/
theorem genome_layer_role_counts_amended :
    (∀ (cfg : NEATConfiguration) (w : ℕ → ℕ → ℚ) (c : ℕ),
      countRole .input (createMinimalGenome cfg w c).1.architecture.layers = 1 ∧
      countRole .output (createMinimalGenome cfg w c).1.architecture.layers = 1 ∧
      countRole .hidden (createMinimalGenome cfg w c).1.architecture.layers = 0) ∧
    (∀ (cfg : NEATConfiguration) (d : AddNodeDraws) (g : Genome),
      countRole .hidden g.architecture.layers ≤ cfg.maxHiddenLayers →
      countRole .input (addNodeMutation cfg d g).architecture.layers =
        countRole .input g.architecture.layers ∧
      countRole .output (addNodeMutation cfg d g).architecture.layers =
        countRole .output g.architecture.layers ∧
      countRole .hidden (addNodeMutation cfg d g).architecture.layers ≤
        cfg.maxHiddenLayers) ∧
    (∀ (k : ℕ) (g : Genome),
      (g.architecture.layers.map (fun l => l.id)).Nodup →
      countRole .input (removeNodeMutation k g).architecture.layers =
        countRole .input g.architecture.layers ∧
      countRole .output (removeNodeMutation k g).architecture.layers =
        countRole .output g.architecture.layers ∧
      countRole .hidden (removeNodeMutation k g).architecture.layers ≤
        countRole .hidden g.architecture.layers) ∧
    (∀ (d : AddConnDraws) (c : ℕ) (g : Genome),
      (addConnectionMutation d c g).1.architecture.layers =
        g.architecture.layers) ∧
    (∀ (k : ℕ) (g : Genome),
      (removeConnectionMutation k g).architecture.layers =
        g.architecture.layers) ∧
    (∀ (w1 w2 : ℕ → ℚ) (g : Genome),
      (mutateWeights w1 w2 g).architecture.layers = g.architecture.layers) ∧
    (∀ (a1 : ℕ → ℚ) (a2 : ℕ → ℕ) (g : Genome) (t : LayerType),
      countRole t (mutateActivation a1 a2 g).architecture.layers =
        countRole t g.architecture.layers) ∧
    (∀ (r : ℚ) (g : Genome),
      (mutateLearningRate r g).architecture.layers = g.architecture.layers) ∧
    (∀ (d : CrossDraws) (newId : String) (p1 p2 : Genome),
      p2.architecture.layers.length ≤ p1.architecture.layers.length →
      ∀ (t : LayerType),
        countRole t (crossover d newId p1 p2).architecture.layers =
          countRole t p1.architecture.layers) := by
  refine ⟨createMinimalGenome_role_counts, addNodeMutation_role_counts,
    removeNodeMutation_role_counts, ?_, ?_, ?_, ?_, ?_, crossover_role_counts⟩
  · intro d c g
    by_cases h1 : g.architecture.layers.length > 2
    · simp only [addConnectionMutation]
      rw [if_pos h1]
      split <;> rfl
    · simp only [addConnectionMutation]
      rw [if_neg h1]
  · intro k g
    simp only [removeConnectionMutation]
    split <;> rfl
  · intro w1 w2 g; rfl
  · intro a1 a2 g t
    exact countRole_mapIdxFrom _ (mutateActivation_step_type a1 a2) t _ 0
  · intro r g; rfl

/-- Witness for the amended C6 at concrete genomes, discharging the
hidden-count, id-distinctness and layer-length hypotheses. -/
theorem genome_layer_role_counts_amended_witness :
    countRole .input
        (addNodeMutation defaultConfiguration addNodeDrawsW threeLayerGenome).architecture.layers =
      countRole .input threeLayerGenome.architecture.layers ∧
    countRole .output (removeNodeMutation 0 threeLayerGenome).architecture.layers =
      countRole .output threeLayerGenome.architecture.layers ∧
    countRole .output
        (crossover mergeDraws "w" threeLayerGenome oneConnectionGenome).architecture.layers =
      countRole .output threeLayerGenome.architecture.layers := by
  have h := genome_layer_role_counts_amended
  exact ⟨(h.2.1 defaultConfiguration addNodeDrawsW threeLayerGenome (by decide)).1,
    (h.2.2.1 0 threeLayerGenome (by decide)).2.1,
    h.2.2.2.2.2.2.2.2 mergeDraws "w" threeLayerGenome oneConnectionGenome
      (by decide) .output⟩

/-! ## The mutate pass and the original genome's architecture -/

/-- C8 counterexample: `mutate` clones only the top level (`{ ...genome }`),
so the original genome's architecture object is mutated in place whenever an
operator fires.  With only the learning-rate gate firing (factor 0.9), the
original `threeLayerGenome`'s architecture after the call has learning rate
9/10000 instead of its prior 1/1000 — the original was not left unchanged. -/
theorem mutate_mutates_original_architecture :
    originalArchitectureAfterMutate defaultConfiguration mutateDrawsLR 0
      threeLayerGenome ≠ threeLayerGenome.architecture := by
  intro heq
  have hlr := congrArg NeuralArchitecture.learningRate heq
  norm_num [originalArchitectureAfterMutate, mutate, mutateDrawsLR,
    defaultConfiguration, mutateLearningRate, threeLayerGenome,
    min_def, max_def] at hlr

/-- C8 amended: the mutation pass works on a shallow copy whose
`architecture` is the original's very object, so the original's architecture
after `mutate(g)` equals the mutated offspring's; it is unchanged precisely
on draw outcomes where no operator fires — when every one of the seven gate
draws fails, the architecture (and the innovation counter) are untouched and
the offspring differs from the original only by its regenerated id. -/
theorem mutate_all_gates_fail_architecture_unchanged (cfg : NEATConfiguration)
    (d : MutateDraws) (c : ℕ) (g : Genome)
    (h1 : ¬ d.addNodeGate < cfg.mutationRates.addNode)
    (h2 : ¬ d.addConnectionGate < cfg.mutationRates.addConnection)
    (h3 : ¬ d.removeNodeGate < cfg.mutationRates.removeNode)
    (h4 : ¬ d.removeConnectionGate < cfg.mutationRates.removeConnection)
    (h5 : ¬ d.mutateWeightsGate < cfg.mutationRates.mutateWeights)
    (h6 : ¬ d.mutateActivationGate < cfg.mutationRates.mutateActivation)
    (h7 : ¬ d.mutateLearningRateGate < cfg.mutationRates.mutateLearningRate) :
    originalArchitectureAfterMutate cfg d c g = g.architecture ∧
    (mutate cfg d c g).1 = { g with id := d.newId } ∧
    (mutate cfg d c g).2 = c := by
  unfold originalArchitectureAfterMutate
  simp only [mutate, if_neg h1, if_neg h2, if_neg h3, if_neg h4, if_neg h5,
    if_neg h6, if_neg h7]
  exact ⟨trivial, trivial, trivial⟩

/-- Witness for the amended C8 at concrete all-gates-fail draws. -/
theorem mutate_all_gates_fail_architecture_unchanged_witness :
    originalArchitectureAfterMutate defaultConfiguration mutateDrawsNone 5
      threeLayerGenome = threeLayerGenome.architecture ∧
    (mutate defaultConfiguration mutateDrawsNone 5 threeLayerGenome).2 = 5 := by
  have h := mutate_all_gates_fail_architecture_unchanged defaultConfiguration
    mutateDrawsNone 5 threeLayerGenome
    (by norm_num [mutateDrawsNone, mutateDrawsLR, defaultConfiguration])
    (by norm_num [mutateDrawsNone, mutateDrawsLR, defaultConfiguration])
    (by norm_num [mutateDrawsNone, mutateDrawsLR, defaultConfiguration])
    (by norm_num [mutateDrawsNone, mutateDrawsLR, defaultConfiguration])
    (by norm_num [mutateDrawsNone, mutateDrawsLR, defaultConfiguration])
    (by norm_num [mutateDrawsNone, mutateDrawsLR, defaultConfiguration])
    (by norm_num [mutateDrawsNone, mutateDrawsLR, defaultConfiguration])
  exact ⟨h.1, h.2.2⟩

/-! ## Speciation: membership partition and created ids -/

theorem findIdx?_lt_length {α : Type} (p : α → Bool) :
    ∀ (l : List α) (i : ℕ), l.findIdx? p = some i → i < l.length := by
  intro l
  induction l with
  | nil => intro i h; simp [List.findIdx?_nil] at h
  | cons a t ih =>
      intro i h
      rw [List.findIdx?_cons] at h
      by_cases hp : p a
      · simp [hp] at h
        simp [← h]
      · simp [hp] at h
        obtain ⟨j, hj, hji⟩ := h
        have := ih j hj
        simp only [List.length_cons]
        omega

theorem speciateStep_none_eq (cfg : NEATConfiguration) (st : SpeciationState)
    (g : Genome)
    (hf : st.specs.findIdx?
      (fun s => distanceBelowThreshold cfg g s.representative) = none) :
    speciateStep cfg st g =
      { pop := st.pop ++ [{ g with species := st.specs.length }]
        specs := st.specs ++
          [{ id := st.specs.length
             representative := { g with species := st.specs.length }
             members := [{ g with species := st.specs.length }]
             bestFitness := g.fitness, stagnation := 0, age := 0 }]
        created := st.created ++ [st.specs.length] } := by
  unfold speciateStep
  rw [hf]

theorem speciateStep_some_eq (cfg : NEATConfiguration) (st : SpeciationState)
    (g : Genome) (i : ℕ)
    (hf : st.specs.findIdx?
      (fun s => distanceBelowThreshold cfg g s.representative) = some i) :
    speciateStep cfg st g =
      { pop := st.pop ++ [{ g with species := (st.specs.getD i default).id }]
        specs := st.specs.set i { st.specs.getD i default with
          members := (st.specs.getD i default).members ++
            [{ g with species := (st.specs.getD i default).id }] }
        created := st.created } := by
  unfold speciateStep
  rw [hf]

theorem flatMap_set_members_append (g' : Genome) :
    ∀ (specs : List Species) (i : ℕ), i < specs.length →
      ((specs.set i { specs.getD i default with
          members := (specs.getD i default).members ++ [g'] }).flatMap
        (fun s => s.members)).Perm
        ((specs.flatMap (fun s => s.members)) ++ [g']) := by
  intro specs
  induction specs with
  | nil => intro i h; simp at h
  | cons s0 rest ih =>
      intro i h
      cases i with
      | zero =>
          simp only [List.getD_cons_zero, List.set_cons_zero, List.flatMap_cons]
          rw [List.append_assoc, List.append_assoc]
          exact List.Perm.append_left s0.members List.perm_append_comm
      | succ j =>
          have hj : j < rest.length := by simpa using h
          simp only [List.getD_cons_succ, List.set_cons_succ, List.flatMap_cons]
          rw [List.append_assoc]
          exact List.Perm.append_left s0.members (ih j hj)

theorem mem_species_set (g' x : Genome) :
    ∀ (specs : List Species) (i : ℕ),
      (∃ s ∈ specs, s.id = x.species ∧ x ∈ s.members) →
      ∃ s ∈ specs.set i { specs.getD i default with
          members := (specs.getD i default).members ++ [g'] },
        s.id = x.species ∧ x ∈ s.members := by
  intro specs
  induction specs with
  | nil =>
      intro i h
      obtain ⟨s, hs, _⟩ := h
      simp at hs
  | cons s0 rest ih =>
      intro i h
      obtain ⟨s, hs, hid, hm⟩ := h
      cases i with
      | zero =>
          simp only [List.getD_cons_zero, List.set_cons_zero]
          rcases List.mem_cons.mp hs with heq | hrest
          · subst heq
            exact ⟨{ s with members := s.members ++ [g'] },
              List.mem_cons_self _ _, hid, List.mem_append_left _ hm⟩
          · exact ⟨s, List.mem_cons_of_mem _ hrest, hid, hm⟩
      | succ j =>
          simp only [List.getD_cons_succ, List.set_cons_succ]
          rcases List.mem_cons.mp hs with heq | hrest
          · subst heq
            exact ⟨s, List.mem_cons_self _ _, hid, hm⟩
          · obtain ⟨s', hs', hid', hm'⟩ := ih j ⟨s, hrest, hid, hm⟩
            exact ⟨s', List.mem_cons_of_mem _ hs', hid', hm'⟩

theorem set_mem_self {α : Type} (l : List α) (i : ℕ) (a : α)
    (h : i < l.length) : a ∈ l.set i a := by
  induction l generalizing i with
  | nil => simp at h
  | cons b t ih =>
      cases i with
      | zero => simp
      | succ j =>
          exact List.mem_cons_of_mem _ (ih j (by simpa using h))

theorem flatMap_cleared (specs : List Species) :
    ((specs.map (fun s => { s with members := ([] : List Genome) })).flatMap
      (fun s => s.members)) = [] := by
  induction specs with
  | nil => rfl
  | cons s rest ih => simp [ih]

theorem flatMap_filter_nonempty :
    ∀ (specs : List Species),
      ((specs.filter (fun s => s.members.length > 0)).flatMap
        (fun s => s.members)) = specs.flatMap (fun s => s.members) := by
  intro specs
  induction specs with
  | nil => rfl
  | cons s rest ih =>
      by_cases h : s.members.length > 0
      · rw [List.filter_cons]
        simp [h, ih]
      · have hnil : s.members = [] := List.eq_nil_of_length_eq_zero (by omega)
        rw [List.filter_cons]
        simp [h, ih, hnil]

theorem speciateStep_inv (cfg : NEATConfiguration) (st : SpeciationState)
    (g : Genome) (h : SpeciationInv st) :
    SpeciationInv (speciateStep cfg st g) := by
  obtain ⟨hperm, hmem⟩ := h
  cases hf : st.specs.findIdx?
      (fun s => distanceBelowThreshold cfg g s.representative) with
  | none =>
      rw [speciateStep_none_eq cfg st g hf]
      refine ⟨?_, ?_⟩
      · simp only [List.flatMap_append, List.flatMap_cons, List.flatMap_nil,
          List.append_nil]
        exact hperm.append_right _
      · intro x hx
        rcases List.mem_append.mp hx with hx | hx
        · obtain ⟨s, hs, hid, hm⟩ := hmem x hx
          exact ⟨s, List.mem_append_left _ hs, hid, hm⟩
        · rw [List.mem_singleton] at hx
          subst hx
          exact ⟨_, List.mem_append_right _ (List.mem_singleton_self _), rfl,
            List.mem_singleton_self _⟩
  | some i =>
      have hlen := findIdx?_lt_length _ st.specs i hf
      rw [speciateStep_some_eq cfg st g i hf]
      refine ⟨?_, ?_⟩
      · exact (flatMap_set_members_append _ st.specs i hlen).trans
          (hperm.append_right _)
      · intro x hx
        rcases List.mem_append.mp hx with hx | hx
        · exact mem_species_set _ x st.specs i (hmem x hx)
        · rw [List.mem_singleton] at hx
          subst hx
          exact ⟨_, set_mem_self st.specs i _ hlen, rfl,
            List.mem_append_right _ (List.mem_singleton_self _)⟩

theorem foldl_speciateStep_inv (cfg : NEATConfiguration) :
    ∀ (pop : List Genome) (st : SpeciationState), SpeciationInv st →
      SpeciationInv (pop.foldl (speciateStep cfg) st) := by
  intro pop
  induction pop with
  | nil => intro st h; exact h
  | cons g rest ih => intro st h; exact ih _ (speciateStep_inv cfg st g h)

/-- C2: after any `speciatePopulation` pass, every genome of the resulting
population carries a `species` id belonging to a surviving species whose
member list contains the genome, and the concatenation of all species'
member lists is a permutation of the whole population (so no genome is lost,
duplicated, or placed in two species). -/
theorem speciatePopulation_membership_partition (cfg : NEATConfiguration)
    (pop : List Genome) (specs : List Species) :
    (∀ g ∈ (speciatePopulation cfg pop specs).pop,
       ∃ s ∈ (speciatePopulation cfg pop specs).specs,
         s.id = g.species ∧ g ∈ s.members) ∧
    (((speciatePopulation cfg pop specs).specs.flatMap
        (fun s => s.members)).Perm
      (speciatePopulation cfg pop specs).pop) := by
  have hinit : SpeciationInv
      ⟨[], specs.map (fun s => { s with members := ([] : List Genome) }), []⟩ := by
    refine ⟨?_, ?_⟩
    · show ((specs.map (fun s => { s with members := ([] : List Genome) })).flatMap
        (fun s => s.members)).Perm []
      rw [flatMap_cleared]
    · intro x hx
      simp at hx
  have hfold := foldl_speciateStep_inv cfg pop _ hinit
  constructor
  · intro x hx
    obtain ⟨s, hs, hid, hm⟩ := hfold.2 x hx
    refine ⟨s, List.mem_filter.mpr ⟨hs, ?_⟩, hid, hm⟩
    simp only [gt_iff_lt, decide_eq_true_eq]
    exact List.length_pos.mpr (List.ne_nil_of_mem hm)
  · show (((pop.foldl (speciateStep cfg)
        ⟨[], specs.map (fun s => { s with members := ([] : List Genome) }), []⟩).specs.filter
          (fun s => s.members.length > 0)).flatMap (fun s => s.members)).Perm
      (speciatePopulation cfg pop specs).pop
    rw [flatMap_filter_nonempty]
    exact hfold.1

/-- Witness for C2 at a one-genome population: the resulting genome's
species field names a species containing it. -/
theorem speciatePopulation_membership_partition_witness :
    ∃ s ∈ (speciatePopulation defaultConfiguration [oneConnectionGenome] []).specs,
      s.id = ((speciatePopulation defaultConfiguration [oneConnectionGenome]
        []).pop.getD 0 default).species ∧
      ((speciatePopulation defaultConfiguration [oneConnectionGenome]
        []).pop.getD 0 default) ∈ s.members :=
  (speciatePopulation_membership_partition defaultConfiguration
    [oneConnectionGenome] []).1 _ (getD_mem_of_lt _ 0 default (by decide))

/-- C3 counterexample: pass 2 creates a species with id 1 (the list holds
only the pass-1 species when the id is minted) and that species survives
pass 2; yet pass 3 — whose input list again holds exactly one species after
the empty one was dropped — creates a *new* species that reuses id 1.  Ids
are therefore not distinct from all earlier species ids once an empty
species has been dropped from the list. -/
theorem species_id_reused_after_drop :
    1 ∈ spePass2.created ∧ 1 ∈ spePass3.created ∧
    1 ∈ spePass2.specs.map (fun s => s.id) := by
  decide

theorem foldl_speciateStep_created (cfg : NEATConfiguration) :
    ∀ (pop : List Genome) (st : SpeciationState) (n : ℕ),
      st.specs.length = n + st.created.length →
      st.created = List.range' n st.created.length →
      (pop.foldl (speciateStep cfg) st).created =
        List.range' n (pop.foldl (speciateStep cfg) st).created.length ∧
      (pop.foldl (speciateStep cfg) st).specs.length =
        n + (pop.foldl (speciateStep cfg) st).created.length := by
  intro pop
  induction pop with
  | nil => intro st n h1 h2; exact ⟨h2, h1⟩
  | cons g rest ih =>
      intro st n h1 h2
      cases hf : st.specs.findIdx?
          (fun s => distanceBelowThreshold cfg g s.representative) with
      | some i =>
          have hstep := speciateStep_some_eq cfg st g i hf
          refine ih (speciateStep cfg st g) n ?_ ?_
          · rw [hstep]
            simpa [List.length_set] using h1
          · rw [hstep]
            exact h2
      | none =>
          have hstep := speciateStep_none_eq cfg st g hf
          refine ih (speciateStep cfg st g) n ?_ ?_
          · rw [hstep]
            simp only [List.length_append, List.length_cons, List.length_nil]
            omega
          · rw [hstep]
            show st.created ++ [st.specs.length] =
              List.range' n (st.created ++ [st.specs.length]).length
            rw [List.length_append]
            have hglue := range'_glue st.created.length n 1
            rw [h1, h2]
            simpa [List.range'_one] using hglue

/-- C3 amended: within a single speciation pass the ids of newly created
species are the consecutive numbers `inputLength, inputLength + 1, ...` —
strictly increasing and never reused within the pass (and fresh for the whole
run as long as no species has ever been dropped); after empty-species
removal, a later pass can mint an id equal to an earlier species' id. -/
theorem speciate_created_ids_consecutive (cfg : NEATConfiguration)
    (pop : List Genome) (specs : List Species) :
    ∃ k, (speciatePopulation cfg pop specs).created =
      List.range' specs.length k := by
  have h := foldl_speciateStep_created cfg pop
    ⟨[], specs.map (fun s => { s with members := ([] : List Genome) }), []⟩
    specs.length (by simp) rfl
  exact ⟨_, h.1⟩

end Plaque
